import Mathlib

/-!
Verification of the npux-labs networking toolkit against its specification.

The development shallowly embeds the Rust sources of the two subsystems
(`tcp-server` and `net-addresses`) as executable Lean definitions:

* the length-delimited framing codec (`read_message` / `write_message` in
  `tcp-server/src/service.rs`),
* the file-transfer server (`FileTransferService::handle_connection`,
  `write_file_response`, `write_file_chunks`) and client
  (`FileTransferClient::receive_file`, `run_client` in `client.rs`),
* the fork-per-connection accept loop's child accounting
  (`ForkPerConnectionTcpServer` in `core.rs`),
* the worker-pool CPU sizing (`get_num_cpus` in `thread_pool.rs`), and
* the resolver front end (`getaddrinfo` and `AddrInfo::from_ptr` in
  `net-addresses/src/getaddrinfo.rs`).

I/O is modelled by explicit byte lists (a stream is the list of bytes it will
deliver before EOF), machine integers by `Nat`/`Int` with explicit `% 2^w`
where overflow matters, fallible operations by `Except`/`Option`, and a Rust
panic by an `Option.none` result.  The protobuf codec is opaque in the source
(generated by prost from `file_transfer.proto`, which is outside `src/`), so
the framing functions are parametrised by `encode`/`decode` functions, and the
numeric values of the protobuf enums are modelled from the spec.
-/

namespace NpuxLabs

/-- Semantic error kinds used across the toolkit (spec section 7); they mirror
`std::io::ErrorKind` values the source constructs. -/
inductive ErrKind where
  | invalidInput
  | notFound
  | unsupported
  | invalidData
  | unexpectedEof
  | other
  deriving DecidableEq, Inhabited

/-! ### Framing codec (`service.rs`, `read_message` / `write_message`)

Bytes are `Nat`s (always `< 256` when produced by the embedding).  A reader is
a byte list: `read_exact n` succeeds iff at least `n` bytes remain. -/

/-- Big-endian bytes of a `u32` value, as produced by `u32::to_be_bytes`.
The argument is expected to be already reduced `% 2^32`. -/
def u32ToBeBytes (n : Nat) : List Nat :=
  [n / 2 ^ 24 % 256, n / 2 ^ 16 % 256, n / 2 ^ 8 % 256, n % 256]

/-- `u32::from_be_bytes` on a 4-byte buffer, as read by `read_message`. -/
def u32FromBeBytes (l : List Nat) : Nat :=
  match l with
  | [a, b, c, d] => ((a * 256 + b) * 256 + c) * 256 + d
  | _ => 0

/-- Embedding of `write_message` restricted to the frame layer: the bytes
emitted for a payload `p` are the 4-byte big-endian length prefix
(`p.len() as u32`, hence `% 2^32`) followed by the payload itself
(`service.rs:332-340`). -/
def writeFrame (p : List Nat) : List Nat :=
  u32ToBeBytes (p.length % 2 ^ 32) ++ p

/-- Embedding of `write_message` (`service.rs:332-340`): encode the message,
then emit it as a frame. -/
def writeMessage {M : Type} (encode : M → List Nat) (m : M) : List Nat :=
  writeFrame (encode m)

/-- Embedding of `read_message` (`service.rs:312-326`): read exactly 4 bytes
(EOF before that is `UnexpectedEof`, as in `Read::read_exact`), interpret them
as a big-endian `u32` length, read exactly that many payload bytes (again
`UnexpectedEof` on a short read), then decode; a decode failure is
`InvalidData`.  Returns the decoded message and the unread remainder of the
stream. -/
def readMessage {M : Type} (decode : List Nat → Option M) (s : List Nat) :
    Except ErrKind (M × List Nat) :=
  if s.length < 4 then .error .unexpectedEof
  else
    let len := u32FromBeBytes (s.take 4)
    let rest := s.drop 4
    if rest.length < len then .error .unexpectedEof
    else
      match decode (rest.take len) with
      | some m => .ok (m, rest.drop len)
      | none => .error .invalidData

theorem u32ToBeBytes_length (n : Nat) : (u32ToBeBytes n).length = 4 := rfl

theorem u32FromBeBytes_u32ToBeBytes (n : Nat) (h : n < 2 ^ 32) :
    u32FromBeBytes (u32ToBeBytes n) = n := by
  simp only [u32ToBeBytes, u32FromBeBytes]
  omega

/-- Claim C4: `write_message` emits exactly `4 + |p|` bytes for a payload `p`,
and (whenever `|p|` is representable as a `u32`, which the claim's phrase "the
big-endian u32 encoding of `|p|`" presupposes) the first four bytes are the
big-endian `u32` encoding of `|p|`. -/
theorem writeFrame_length_honest (p : List Nat) :
    (writeFrame p).length = 4 + p.length ∧
      (p.length < 2 ^ 32 → (writeFrame p).take 4 = u32ToBeBytes p.length) := by
  constructor
  · simp [writeFrame, u32ToBeBytes]
    omega
  · intro h
    unfold writeFrame
    rw [Nat.mod_eq_of_lt h,
      List.take_append_of_le_length (by rw [u32ToBeBytes_length]),
      List.take_of_length_le (by rw [u32ToBeBytes_length])]

theorem writeFrame_length_honest_witness :
    (writeFrame [7, 8, 9]).length = 4 + 3 ∧
      (writeFrame [7, 8, 9]).take 4 = u32ToBeBytes 3 :=
  ⟨(writeFrame_length_honest [7, 8, 9]).1,
   (writeFrame_length_honest [7, 8, 9]).2 (by decide)⟩

/-- Amended claim C3: the framing round-trip holds for every message whose
encoding is shorter than `2^32` bytes: if `decode (encode m) = some m` then
reading one frame from the bytes `write_message` produced for `m` yields
exactly `m` (and consumes the whole stream). -/
theorem readMessage_writeMessage {M : Type} (encode : M → List Nat)
    (decode : List Nat → Option M) (m : M)
    (hcodec : decode (encode m) = some m)
    (hlen : (encode m).length < 2 ^ 32) :
    readMessage decode (writeMessage encode m) = .ok (m, []) := by
  unfold writeMessage writeFrame readMessage
  rw [Nat.mod_eq_of_lt hlen]
  have h4 : (u32ToBeBytes (encode m).length).length = 4 := rfl
  have htake : (u32ToBeBytes (encode m).length ++ encode m).take 4 =
      u32ToBeBytes (encode m).length := by
    rw [List.take_append_of_le_length (by omega)]
    simp [h4]
  have hdrop : (u32ToBeBytes (encode m).length ++ encode m).drop 4 = encode m := by
    rw [List.drop_append_of_le_length (by omega)]
    simp [h4]
  rw [if_neg (by rw [List.length_append, h4]; omega)]
  simp only [htake, hdrop, u32FromBeBytes_u32ToBeBytes _ hlen]
  rw [if_neg (by omega)]
  simp [hcodec]

theorem readMessage_writeMessage_witness :
    some [1, 2, 3] = some [1, 2, 3] ∧
      ([1, 2, 3] : List Nat).length < 2 ^ 32 ∧
      readMessage (some ·) (writeMessage id [1, 2, 3]) = .ok ([1, 2, 3], []) :=
  ⟨rfl, by norm_num,
   readMessage_writeMessage id (some ·) [1, 2, 3] rfl (by norm_num)⟩

/-- With the identity codec, a payload whose length is a nonzero multiple of
`2^32` is framed with a truncated (zero) length prefix, so reading the frame
back yields the empty message. -/
theorem readMessage_writeMessage_of_length_mod (p : List Nat)
    (h0 : p.length % 2 ^ 32 = 0) :
    readMessage (some ·) (writeMessage id p) = .ok ([], p) := by
  unfold writeMessage writeFrame readMessage
  simp only [id_eq]
  rw [h0]
  have h4 : (u32ToBeBytes 0).length = 4 := rfl
  have htake : (u32ToBeBytes 0 ++ p).take 4 = u32ToBeBytes 0 := by
    rw [List.take_append_of_le_length (by rw [h4])]
    exact List.take_of_length_le (by rw [h4])
  have hdrop : (u32ToBeBytes 0 ++ p).drop 4 = p := by
    rw [List.drop_append_of_le_length (by rw [h4])]
    rw [show (u32ToBeBytes 0).drop 4 = [] from rfl, List.nil_append]
  rw [if_neg (by rw [List.length_append, h4]; omega)]
  simp only [htake, hdrop, show u32FromBeBytes (u32ToBeBytes 0) = 0 from rfl]
  rw [if_neg (by omega)]
  simp

/-- Counterexample to claim C3 as stated: with the identity codec (which
satisfies `decode (encode m) = some m` for every `m`) and a message of
`2^32` bytes, `write_message` truncates the length prefix to `0` (the Rust
source computes `message_bytes.len() as u32`), so `read_message` returns the
empty message rather than `m`. -/
theorem readMessage_writeMessage_truncation :
    readMessage (some ·) (writeMessage id (List.replicate (2 ^ 32) (0 : Nat))) =
        .ok ([], List.replicate (2 ^ 32) (0 : Nat)) ∧
      ([] : List Nat) ≠ List.replicate (2 ^ 32) (0 : Nat) := by
  constructor
  · exact readMessage_writeMessage_of_length_mod _
      (by rw [List.length_replicate]; exact Nat.mod_self _)
  · intro h
    have hl := congrArg List.length h
    simp only [List.length_nil, List.length_replicate] at hl
    norm_num at hl

/-! ### Protocol messages and the server's chunking loop
(`service.rs`, `FileTransferService::write_file_chunks`)

The protobuf schema `file_transfer.proto` and its generated code are outside
`src/`, so the message record types and enum numerals are modelled from the
spec's data model (section 3): `FileChunk` has index `u32` and data `bytes`. -/

/-- Modelled from the spec: the `FileChunk` protobuf message
(`FileChunk with index u32 and data bytes`); the generated prost struct is not
under `src/`.  The `index` field is a `u32`, kept `< 2^32` by construction. -/
structure FileChunkM where
  index : Nat
  data : List Nat
  deriving DecidableEq

/-- The loop of `write_file_chunks` (`service.rs:188-209`), with the file
content given as the byte list `b` starting at the current read position:
each `file.read(&mut buf)` into the `chunkSize`-sized buffer returns the next
`min chunkSize remaining` bytes (a regular-file read that fills the buffer
completely until end-of-file), a read of `0` bytes breaks the loop, and the
`u32` chunk counter `idx` wraps modulo `2^32` (the source increments a `u32`).
A `chunkSize` of `0` makes every read return `0` bytes, so the loop breaks at
once. -/
def writeFileChunksGo (c : Nat) (b : List Nat) (idx : Nat) : List FileChunkM :=
  if c = 0 ∨ b = [] then []
  else ⟨idx % 2 ^ 32, b.take c⟩ :: writeFileChunksGo c (b.drop c) (idx + 1)
termination_by b.length
decreasing_by
  rename_i h
  push_neg at h
  have hb : 0 < b.length := List.length_pos.mpr h.2
  simp only [List.length_drop]
  omega

/-- Embedding of `write_file_chunks` (`service.rs:188-209`): stream the file
content `b` as chunks of at most `c` bytes with indices counted from `0`. -/
def writeFileChunks (c : Nat) (b : List Nat) : List FileChunkM :=
  writeFileChunksGo c b 0

theorem writeFileChunksGo_eq_map (c : Nat) (hc : 0 < c) :
    ∀ n, ∀ b : List Nat, b.length ≤ n → ∀ idx,
      writeFileChunksGo c b idx =
        (List.range ((b.length + c - 1) / c)).map
          (fun i => ⟨(idx + i) % 2 ^ 32, (b.drop (i * c)).take c⟩) := by
  intro n
  induction n with
  | zero =>
    intro b hb idx
    have hb0 : b = [] := List.eq_nil_of_length_eq_zero (by omega)
    subst hb0
    rw [writeFileChunksGo, if_pos (Or.inr rfl)]
    have h0 : (([] : List Nat).length + c - 1) / c = 0 := by
      rw [List.length_nil]
      exact Nat.div_eq_of_lt (by omega)
    rw [h0]
    rfl
  | succ n ih =>
    intro b hb idx
    by_cases hb0 : b = []
    · subst hb0
      rw [writeFileChunksGo, if_pos (Or.inr rfl)]
      have h0 : (([] : List Nat).length + c - 1) / c = 0 := by
        rw [List.length_nil]
        exact Nat.div_eq_of_lt (by omega)
      rw [h0]
      rfl
    · have hb1 : 0 < b.length := List.length_pos.mpr hb0
      rw [writeFileChunksGo, if_neg (by push_neg; exact ⟨by omega, hb0⟩)]
      have hdl : (b.drop c).length = b.length - c := List.length_drop c b
      rw [ih (b.drop c) (by omega) (idx + 1)]
      have hcount : (b.length + c - 1) / c = ((b.drop c).length + c - 1) / c + 1 := by
        rw [hdl]
        rcases Nat.lt_or_ge b.length c with hlt | hge
        · have h2 : b.length - c = 0 := Nat.sub_eq_zero_of_le (le_of_lt hlt)
          have h3 : (0 + c - 1) / c = 0 := Nat.div_eq_of_lt (by omega)
          have h1 : b.length + c - 1 = (b.length - 1) + c := by omega
          rw [h2, h3, h1, Nat.add_div_right _ hc, Nat.div_eq_of_lt (by omega)]
        · have h1 : b.length + c - 1 = (b.length - c + c - 1) + c := by omega
          rw [h1, Nat.add_div_right _ hc]
      rw [hcount, List.range_succ_eq_map, List.map_cons, List.map_map]
      congr 1
      · simp
      · refine List.map_congr_left ?_
        intro i hi
        simp only [Function.comp_apply]
        congr 1
        · omega
        · rw [List.drop_drop]
          congr 1
          simp only [Nat.succ_eq_add_one]
          ring_nf

/-- Closed form for the chunk stream: `write_file_chunks` over content `b`
with chunk size `c > 0` produces one chunk per index `i < ceil (length b / c)`
holding bytes `i*c ..< min ((i+1)*c) (length b)`. -/
theorem writeFileChunks_eq_map (c : Nat) (b : List Nat) (hc : 0 < c) :
    writeFileChunks c b =
      (List.range ((b.length + c - 1) / c)).map
        (fun i => ⟨i % 2 ^ 32, (b.drop (i * c)).take c⟩) := by
  rw [writeFileChunks, writeFileChunksGo_eq_map c hc b.length b le_rfl 0]
  refine List.map_congr_left ?_
  intro i hi
  simp

theorem writeFileChunksGo_flatten (c : Nat) (hc : 0 < c) :
    ∀ n, ∀ b : List Nat, b.length ≤ n → ∀ idx,
      ((writeFileChunksGo c b idx).map FileChunkM.data).flatten = b := by
  intro n
  induction n with
  | zero =>
    intro b hb idx
    have hb0 : b = [] := List.eq_nil_of_length_eq_zero (by omega)
    subst hb0
    rw [writeFileChunksGo, if_pos (Or.inr rfl)]
    rfl
  | succ n ih =>
    intro b hb idx
    by_cases hb0 : b = []
    · subst hb0
      rw [writeFileChunksGo, if_pos (Or.inr rfl)]
      rfl
    · have hb1 : 0 < b.length := List.length_pos.mpr hb0
      rw [writeFileChunksGo, if_neg (by push_neg; exact ⟨by omega, hb0⟩)]
      have hdl : (b.drop c).length = b.length - c := List.length_drop c b
      simp only [List.map_cons, List.flatten_cons]
      rw [ih (b.drop c) (by omega) (idx + 1)]
      exact List.take_append_drop c b

/-- Claim C2: for file content `b` and chunk size `c > 0` (and at most `2^32`
chunks, the range in which the spec defines the `u32` index), the server sends
exactly `ceil (length b / c)` chunks; the `i`-th chunk carries index `i` and
the bytes from `i*c` up to `min ((i+1)*c) (length b)`, every payload is at
most `c` bytes, and the payloads concatenate back to `b` in send order. -/
theorem writeFileChunks_spec (c : Nat) (b : List Nat) (hc : 0 < c)
    (hcount : (b.length + c - 1) / c ≤ 2 ^ 32) :
    (writeFileChunks c b).length = (b.length + c - 1) / c ∧
      (∀ i, ∀ h : i < (writeFileChunks c b).length,
        (writeFileChunks c b)[i].index = i ∧
          (writeFileChunks c b)[i].data = (b.drop (i * c)).take c ∧
          (writeFileChunks c b)[i].data.length ≤ c) ∧
      ((writeFileChunks c b).map FileChunkM.data).flatten = b := by
  have hmap := writeFileChunks_eq_map c b hc
  have hlen : (writeFileChunks c b).length = (b.length + c - 1) / c := by
    rw [hmap, List.length_map, List.length_range]
  refine ⟨hlen, ?_, writeFileChunksGo_flatten c hc b.length b le_rfl 0⟩
  intro i h
  have hi : i < (b.length + c - 1) / c := by rw [← hlen]; exact h
  have hgot : (writeFileChunks c b)[i] =
      ⟨i % 2 ^ 32, (b.drop (i * c)).take c⟩ := by
    simp only [hmap, List.getElem_map, List.getElem_range]
  rw [hgot]
  refine ⟨Nat.mod_eq_of_lt (by omega), rfl, ?_⟩
  simp only [List.length_take]
  omega

theorem writeFileChunks_spec_witness :
    0 < 2 ∧ (([9, 8, 7] : List Nat).length + 2 - 1) / 2 ≤ 2 ^ 32 ∧
      ((writeFileChunks 2 [9, 8, 7]).length = (([9, 8, 7] : List Nat).length + 2 - 1) / 2 ∧
        (∀ i, ∀ h : i < (writeFileChunks 2 [9, 8, 7]).length,
          (writeFileChunks 2 [9, 8, 7])[i].index = i ∧
            (writeFileChunks 2 [9, 8, 7])[i].data =
              (([9, 8, 7] : List Nat).drop (i * 2)).take 2 ∧
            (writeFileChunks 2 [9, 8, 7])[i].data.length ≤ 2) ∧
        ((writeFileChunks 2 [9, 8, 7]).map FileChunkM.data).flatten = [9, 8, 7]) :=
  ⟨by norm_num, by norm_num,
   writeFileChunks_spec 2 [9, 8, 7] (by norm_num) (by norm_num)⟩

/-! ### Protocol messages, server handler and client driver
(`service.rs`, `client.rs`)

The protobuf enums and message records are generated by prost outside `src/`;
their shapes and numerals are modelled from the spec (section 3: protocol
entities; proto3 assigns consecutive numerals starting at `0` in declaration
order, `Accepted` then `Rejected`). -/

/-- Modelled from the spec: `FileMetadata.Status` of the `FileResponse`
protobuf (`status: FileMetadata with Found or NotFound`); the generated enum is not
under `src/`. -/
inductive Status where
  | found
  | notFound
  deriving DecidableEq

/-- Modelled from the spec: `ErrorDetails.Kind` of the `FileResponse`
protobuf (`kind: UnsupportedVersion, NotFound, Internal and more`); only the
kinds the embedded code paths produce are needed. -/
inductive DetailsKind where
  | unsupportedVersion
  | fileNotFound
  | internalError
  deriving DecidableEq

/-- Modelled from the spec: the `TransferAck.AckStatus` protobuf enum
(`status: Accepted or Rejected`); proto3 numerals `Accepted = 0`,
`Rejected = 1`. -/
inductive AckStatus where
  | accepted
  | rejected
  deriving DecidableEq

/-- `AckStatus as i32` (the numeric value prost assigns the variant). -/
def ackStatusToInt : AckStatus → Int
  | .accepted => 0
  | .rejected => 1

/-- `AckStatus::try_from(i32)` as generated by prost: succeeds exactly on the
known discriminants, fails on every other integer. -/
def ackStatusTryFrom (n : Int) : Option AckStatus :=
  if n = 0 then some .accepted
  else if n = 1 then some .rejected
  else none

/-- A message the server can put on the wire (the payload the positional
protocol step expects). -/
inductive SrvMsg where
  | fileResponseMetadata (status : Status) (fileSize : Nat)
  | fileResponseError (kind : DetailsKind)
  | fileChunk (ch : FileChunkM)
  deriving DecidableEq

/-- An observable action of the server on its connection. -/
inductive SrvEvent where
  | send (m : SrvMsg)
  | shutdownConn
  deriving DecidableEq

/-- Configuration of `FileTransferService` (`service.rs:56-73`). -/
structure FileTransferServiceM where
  protocolVersion : Nat
  chunkSize : Nat
  deriving DecidableEq

/-- The environment of one `handle_connection` call (`service.rs:78-101`):
the version field of the decoded `FileQuery`, the content of
`base_dir.join(query.filename)` (`none` when `fs::metadata` fails, i.e. the
file is absent), the `status` field of the decoded `TransferAck`, and whether
debug-level tracing events are evaluated (the `tracing::debug!` macro only
evaluates its fields when the debug level is enabled by the env filter).
Both framed reads are assumed to decode; their failure paths (shutdown plus
`InvalidData`) are not needed by the claims. -/
structure ConnInput where
  queryVersion : Nat
  fileContent : Option (List Nat)
  ackStatus : Int
  debugEnabled : Bool
  deriving DecidableEq

/-- Embedding of `FileTransferService::handle_connection`
(`service.rs:78-101`, with `verify_protocol_version`, `write_file_response`
(`142-166`) and `write_error_and_shutdown` inlined at their call sites):

1. version mismatch: send `FileResponse::Error(UnsupportedVersion)`, shut
   down, return an `Unsupported` error;
2. file absent: send `Metadata(NotFound, 0)`, shut down, return a `NotFound`
   error;
3. otherwise send `Metadata(Found, size)`, read the ack, and — at
   `service.rs:91` — evaluate `AckStatus::try_from(ack.status).unwrap()`
   inside a `tracing::debug!` field, which panics on an unknown discriminant
   when debug logging is enabled (modelled as outcome `none`);
4. send the chunk stream iff `ack.status == AckStatus::Accepted as i32`,
   then shut down and return `Ok`.

The result is the event trace paired with `some` of the returned
`io::Result` (`none` models the panic, which produces no further events). -/
def handleConnection (svc : FileTransferServiceM) (inp : ConnInput) :
    List SrvEvent × Option (Except ErrKind Unit) :=
  if inp.queryVersion ≠ svc.protocolVersion then
    ([.send (.fileResponseError .unsupportedVersion), .shutdownConn],
     some (.error .unsupported))
  else
    match inp.fileContent with
    | none =>
      ([.send (.fileResponseMetadata .notFound 0), .shutdownConn],
       some (.error .notFound))
    | some b =>
      if inp.debugEnabled ∧ (ackStatusTryFrom inp.ackStatus).isNone then
        ([.send (.fileResponseMetadata .found b.length)], none)
      else
        let chunkEvts :=
          if inp.ackStatus = ackStatusToInt .accepted then
            (writeFileChunks svc.chunkSize b).map (fun ch => SrvEvent.send (.fileChunk ch))
          else []
        ([.send (.fileResponseMetadata .found b.length)] ++ chunkEvts ++ [.shutdownConn],
         some (.ok ()))

/-- The `response` oneof of a decoded `FileResponse` as `run_client` matches
on it (`client.rs:40-63`). -/
inductive RespCase where
  | metadata (status : Status) (fileSize : Nat)
  | errorDetails (kind : DetailsKind)
  deriving DecidableEq

/-- Embedding of the decision logic of `run_client` (`client.rs:33-66`) after
`request_file` returned: given the received `FileResponse` and the configured
`max_file_size`, it returns the `TransferAck.status` values sent (in order),
whether the client proceeds to create the local file and download
(`receive_file`), and the `io::Result` value `run_client` returns (with the
I/O operations themselves succeeding).  The source compares only
`metadata.file_size > args.max_file_size`; `metadata.status` is never
inspected, and every branch falls through to `Ok(())`. -/
def runClient (resp : Option RespCase) (maxFileSize : Nat) :
    List Int × Bool × Except ErrKind Unit :=
  match resp with
  | some (.metadata _status fileSize) =>
    if fileSize > maxFileSize then
      ([ackStatusToInt .rejected], false, .ok ())
    else
      ([ackStatusToInt .accepted], true, .ok ())
  | some (.errorDetails _) => ([], false, .ok ())
  | none => ([], false, .ok ())

/-- Amended claim C1: when the requested file is absent the server responds
`Metadata(NotFound, 0)`, shuts the connection down and returns a not-found
error; the client, however, never inspects the metadata status — since the
advertised size `0` cannot exceed `max_file_size` it sends
`TransferAck(Accepted)`, proceeds to create the local file and download, and
`run_client` returns `Ok` (it does not report not-found). -/
theorem notFound_server_sends_metadata_client_acks (svc : FileTransferServiceM)
    (inp : ConnInput) (hv : inp.queryVersion = svc.protocolVersion)
    (hf : inp.fileContent = none) :
    handleConnection svc inp =
        ([.send (.fileResponseMetadata .notFound 0), .shutdownConn],
         some (.error .notFound)) ∧
      ∀ maxFileSize, runClient (some (.metadata .notFound 0)) maxFileSize =
        ([ackStatusToInt .accepted], true, .ok ()) := by
  constructor
  · rw [handleConnection, if_neg (by rw [hv]; simp), hf]
  · intro maxFileSize
    rw [runClient]
    rw [if_neg (by omega)]

theorem notFound_server_sends_metadata_client_acks_witness :
    (1 : Nat) = 1 ∧ (none : Option (List Nat)) = none ∧
      (handleConnection ⟨1, 2⟩ ⟨1, none, 0, false⟩ =
          ([.send (.fileResponseMetadata .notFound 0), .shutdownConn],
           some (.error .notFound)) ∧
        ∀ maxFileSize, runClient (some (.metadata .notFound 0)) maxFileSize =
          ([ackStatusToInt .accepted], true, .ok ())) :=
  ⟨rfl, rfl, notFound_server_sends_metadata_client_acks ⟨1, 2⟩ ⟨1, none, 0, false⟩ rfl rfl⟩

/-- Counterexample to claim C1 as stated: on receiving
`Metadata(NotFound, 0)` with the default `max_file_size` of 8 MiB the client
does send a `TransferAck` — with status `Accepted` (numeral `0`) — proceeds
to download, and returns `Ok` instead of reporting not-found
(`client.rs:40-59` checks only `file_size > max_file_size`). -/
theorem runClient_notFound_sends_accepted_ack :
    runClient (some (.metadata .notFound 0)) 8388608 =
        ([ackStatusToInt .accepted], true, .ok ()) ∧
      [ackStatusToInt .accepted] ≠ ([] : List Int) := by
  constructor
  · rfl
  · intro h
    exact absurd (congrArg List.length h) (by simp)

/-- Amended claim C9: with a matching version and a present file, the server
streams chunks iff the received ack status equals `Accepted as i32` (numeral
`0`); a `Rejected` or unknown status causes no chunks, a shutdown and an `Ok`
return — except that an out-of-range status panics inside the
`tracing::debug!` field at `service.rs:91` (`AckStatus::try_from(..).unwrap()`)
when debug-level logging is enabled, in which case no shutdown happens and
`handle_connection` does not return. -/
theorem handleConnection_chunks_iff_accepted (svc : FileTransferServiceM)
    (inp : ConnInput) (b : List Nat)
    (hv : inp.queryVersion = svc.protocolVersion)
    (hf : inp.fileContent = some b)
    (hsafe : inp.debugEnabled = false ∨ (ackStatusTryFrom inp.ackStatus).isSome) :
    (inp.ackStatus = ackStatusToInt .accepted →
        handleConnection svc inp =
          ([.send (.fileResponseMetadata .found b.length)] ++
              (writeFileChunks svc.chunkSize b).map
                (fun ch => SrvEvent.send (.fileChunk ch)) ++
            [.shutdownConn],
           some (.ok ()))) ∧
      (inp.ackStatus ≠ ackStatusToInt .accepted →
        handleConnection svc inp =
          ([.send (.fileResponseMetadata .found b.length), .shutdownConn],
           some (.ok ()))) := by
  have hnp : ¬(inp.debugEnabled ∧ (ackStatusTryFrom inp.ackStatus).isNone) := by
    rcases hsafe with h | h
    · rw [h]
      simp
    · intro hc
      rw [Option.isNone_iff_eq_none] at hc
      rw [Option.isSome_iff_exists] at h
      rcases h with ⟨a, ha⟩
      rw [ha] at hc
      exact absurd hc.2 (by simp)
  constructor
  · intro hacc
    rw [handleConnection, if_neg (by rw [hv]; simp), hf]
    simp only [if_neg hnp, if_pos hacc]
  · intro hrej
    rw [handleConnection, if_neg (by rw [hv]; simp), hf]
    simp only [if_neg hnp, if_neg hrej]
    rfl

theorem handleConnection_chunks_iff_accepted_witness :
    (1 : Nat) = 1 ∧ some [5, 6] = some [5, 6] ∧
      (ackStatusTryFrom 1).isSome = true ∧
      ((1 : Int) = ackStatusToInt .accepted →
          handleConnection ⟨1, 2⟩ ⟨1, some [5, 6], 1, true⟩ =
            ([.send (.fileResponseMetadata .found ([5, 6] : List Nat).length)] ++
                (writeFileChunks 2 [5, 6]).map (fun ch => SrvEvent.send (.fileChunk ch)) ++
              [.shutdownConn],
             some (.ok ()))) ∧
      ((1 : Int) ≠ ackStatusToInt .accepted →
          handleConnection ⟨1, 2⟩ ⟨1, some [5, 6], 1, true⟩ =
            ([.send (.fileResponseMetadata .found ([5, 6] : List Nat).length), .shutdownConn],
             some (.ok ()))) :=
  ⟨rfl, rfl, rfl,
   (handleConnection_chunks_iff_accepted ⟨1, 2⟩ ⟨1, some [5, 6], 1, true⟩ [5, 6] rfl rfl
      (Or.inr (by decide))).1,
   (handleConnection_chunks_iff_accepted ⟨1, 2⟩ ⟨1, some [5, 6], 1, true⟩ [5, 6] rfl rfl
      (Or.inr (by decide))).2⟩

/-- Counterexample to claim C9 as stated: with debug logging enabled, an
out-of-range ack status (here `2`) makes `handle_connection` panic at the
`AckStatus::try_from(ack.status).unwrap()` inside `tracing::debug!`
(`service.rs:91`): the metadata response has been sent, but no shutdown event
occurs and no `Ok` is returned — the unrecognized status is not treated like
`Rejected`. -/
theorem handleConnection_unknown_status_panics :
    handleConnection ⟨1, 1024⟩ ⟨1, some [5], 2, true⟩ =
      ([.send (.fileResponseMetadata .found 1)], none) := by
  rfl

/-! ### Client `receive_file` (`service.rs:275-297`) -/

/-- An observable action of the client on its sink (`writer.write_all` /
`writer.flush`). -/
inductive SinkOp where
  | write (data : List Nat)
  | flush
  deriving DecidableEq

theorem readMessage_ok_length_lt {M : Type} (decode : List Nat → Option M)
    (s : List Nat) (m : M) (rest : List Nat)
    (h : readMessage decode s = .ok (m, rest)) : rest.length < s.length := by
  rw [readMessage] at h
  by_cases h1 : s.length < 4
  · rw [if_pos h1] at h
    exact absurd h (by simp)
  · rw [if_neg h1] at h
    by_cases h2 : (s.drop 4).length < u32FromBeBytes (s.take 4)
    · rw [if_pos h2] at h
      exact absurd h (by simp)
    · rw [if_neg h2] at h
      cases hd : decode ((s.drop 4).take (u32FromBeBytes (s.take 4))) with
      | some m2 =>
        rw [hd] at h
        simp only [Except.ok.injEq, Prod.mk.injEq] at h
        have hrest : rest = (s.drop 4).drop (u32FromBeBytes (s.take 4)) := h.2.symm
        rw [hrest]
        simp only [List.length_drop]
        omega
      | none =>
        rw [hd] at h
        exact absurd h (by simp)

/-- Embedding of `FileTransferClient::receive_file` (`service.rs:275-297`):
repeatedly read a framed `FileChunk`; on success, `write_all` its `data` to
the sink and add its length to the running `u64` total (wrapping `% 2^64`);
on an `UnexpectedEof` read error, break, `flush` the sink and return the
total; surface every other read error.  The result is the ordered list of
sink operations together with the returned byte count. -/
def receiveFile (decode : List Nat → Option FileChunkM) (s : List Nat) :
    Except ErrKind (List SinkOp × Nat) :=
  match hr : readMessage decode s with
  | .ok (chunk, rest) =>
    match receiveFile decode rest with
    | .ok (ops, total) =>
      .ok (.write chunk.data :: ops, (chunk.data.length + total) % 2 ^ 64)
    | .error e => .error e
  | .error e =>
    if e = .unexpectedEof then .ok ([.flush], 0) else .error e
termination_by s.length
decreasing_by exact readMessage_ok_length_lt decode s _ _ hr

/-- The greedy decomposition of a byte stream into framed chunks: the chunks
`read_message` yields before its first error, together with that error. -/
def parseChunks (decode : List Nat → Option FileChunkM) (s : List Nat) :
    List FileChunkM × ErrKind :=
  match hr : readMessage decode s with
  | .ok (chunk, rest) =>
    let p := parseChunks decode rest
    (chunk :: p.1, p.2)
  | .error e => ([], e)
termination_by s.length
decreasing_by exact readMessage_ok_length_lt decode s _ _ hr

/-- The spec's framing-rule notion of a clean stream end: the stream is a
concatenation of complete frames, so EOF is reached with zero bytes of a
length prefix pending. -/
def cleanFrameStream (s : List Nat) : Bool :=
  if s = [] then true
  else if s.length < 4 then false
  else if (s.drop 4).length < u32FromBeBytes (s.take 4) then false
  else cleanFrameStream ((s.drop 4).drop (u32FromBeBytes (s.take 4)))
termination_by s.length
decreasing_by
  simp only [List.length_drop]
  omega

theorem receiveFile_eq_ok (decode : List Nat → Option FileChunkM)
    (s : List Nat) (chunk : FileChunkM) (rest : List Nat)
    (h : readMessage decode s = .ok (chunk, rest)) :
    receiveFile decode s =
      match receiveFile decode rest with
      | .ok (ops, total) =>
        .ok (.write chunk.data :: ops, (chunk.data.length + total) % 2 ^ 64)
      | .error e => .error e := by
  conv_lhs => unfold receiveFile
  split
  · rename_i chunk2 rest2 h2
    rw [h] at h2
    simp only [Except.ok.injEq, Prod.mk.injEq] at h2
    obtain ⟨h21, h22⟩ := h2
    subst h21
    subst h22
    rfl
  · rename_i e2 h2
    rw [h] at h2
    exact absurd h2 (by simp)

theorem receiveFile_eq_error (decode : List Nat → Option FileChunkM)
    (s : List Nat) (e : ErrKind)
    (h : readMessage decode s = .error e) :
    receiveFile decode s = if e = .unexpectedEof then .ok ([.flush], 0) else .error e := by
  conv_lhs => unfold receiveFile
  split
  · rename_i chunk2 rest2 h2
    rw [h] at h2
    exact absurd h2 (by simp)
  · rename_i e2 h2
    rw [h] at h2
    simp only [Except.error.injEq] at h2
    subst h2
    rfl

theorem parseChunks_eq_ok (decode : List Nat → Option FileChunkM)
    (s : List Nat) (chunk : FileChunkM) (rest : List Nat)
    (h : readMessage decode s = .ok (chunk, rest)) :
    parseChunks decode s =
      (chunk :: (parseChunks decode rest).1, (parseChunks decode rest).2) := by
  conv_lhs => unfold parseChunks
  split
  · rename_i chunk2 rest2 h2
    rw [h] at h2
    simp only [Except.ok.injEq, Prod.mk.injEq] at h2
    obtain ⟨h21, h22⟩ := h2
    subst h21
    subst h22
    rfl
  · rename_i e2 h2
    rw [h] at h2
    exact absurd h2 (by simp)

theorem parseChunks_eq_error (decode : List Nat → Option FileChunkM)
    (s : List Nat) (e : ErrKind)
    (h : readMessage decode s = .error e) :
    parseChunks decode s = ([], e) := by
  conv_lhs => unfold parseChunks
  split
  · rename_i chunk2 rest2 h2
    rw [h] at h2
    exact absurd h2 (by simp)
  · rename_i e2 h2
    rw [h] at h2
    simp only [Except.error.injEq] at h2
    subst h2
    rfl

/-- Amended claim C5: `receive_file` writes each received chunk's data to the
sink in receipt order, flushes the sink at the end, and returns the total
byte count (a wrapping `u64`); it terminates successfully exactly when
`read_message` fails with `UnexpectedEof` — which happens not only at EOF
with zero bytes of a length prefix (the clean shutdown of the framing rules)
but also when EOF truncates a frame mid-prefix or mid-payload — and every
other read error (`InvalidData` from a decode failure) is surfaced. -/
theorem receiveFile_spec (decode : List Nat → Option FileChunkM) (s : List Nat) :
    receiveFile decode s =
      if (parseChunks decode s).2 = .unexpectedEof then
        .ok ((parseChunks decode s).1.map (fun ch => SinkOp.write ch.data) ++ [.flush],
          ((parseChunks decode s).1.map (fun ch => ch.data.length)).sum % 2 ^ 64)
      else .error (parseChunks decode s).2 := by
  suffices hs : ∀ n, ∀ s : List Nat, s.length ≤ n →
      receiveFile decode s =
        if (parseChunks decode s).2 = .unexpectedEof then
          .ok ((parseChunks decode s).1.map (fun ch => SinkOp.write ch.data) ++ [.flush],
            ((parseChunks decode s).1.map (fun ch => ch.data.length)).sum % 2 ^ 64)
        else .error (parseChunks decode s).2 by
    exact hs s.length s le_rfl
  intro n
  induction n with
  | zero =>
    intro s hs
    cases hr : readMessage decode s with
    | ok v =>
      exact absurd (readMessage_ok_length_lt decode s v.1 v.2 (by rw [hr])) (by omega)
    | error e =>
      rw [receiveFile_eq_error decode s e hr, parseChunks_eq_error decode s e hr]
      by_cases he : e = .unexpectedEof
      · rw [if_pos he, if_pos he]
        rfl
      · rw [if_neg he, if_neg he]
  | succ n ih =>
    intro s hs
    cases hr : readMessage decode s with
    | ok v =>
      have hlt : v.2.length < s.length := readMessage_ok_length_lt decode s v.1 v.2 (by rw [hr])
      have hrec := ih v.2 (by omega)
      rw [receiveFile_eq_ok decode s v.1 v.2 (by rw [hr]),
        parseChunks_eq_ok decode s v.1 v.2 (by rw [hr])]
      by_cases he : (parseChunks decode v.2).2 = .unexpectedEof
      · rw [if_pos he] at hrec
        rw [hrec, if_pos he]
        simp only [List.map_cons, List.cons_append, List.sum_cons, Except.ok.injEq,
          Prod.mk.injEq]
        exact ⟨trivial, by omega⟩
      · rw [if_neg he] at hrec
        rw [hrec, if_neg he]
    | error e =>
      rw [receiveFile_eq_error decode s e hr, parseChunks_eq_error decode s e hr]
      by_cases he : e = .unexpectedEof
      · rw [if_pos he, if_pos he]
        rfl
      · rw [if_neg he, if_neg he]

/-- Counterexample to the "clean shutdown" gloss in claim C5: the stream
`[0,0,0,5]` ends mid-frame (a complete length prefix announcing 5 payload
bytes, none of which arrive), which is not the framing rules' clean end of
stream, yet `receive_file` treats the resulting `UnexpectedEof` as a normal
end: it returns success with 0 bytes after flushing the sink. -/
theorem receiveFile_truncated_frame_success :
    receiveFile (fun _ => (none : Option FileChunkM)) [0, 0, 0, 5] =
        .ok ([.flush], 0) ∧
      cleanFrameStream [0, 0, 0, 5] = false := by
  constructor
  · have h : readMessage (fun _ => (none : Option FileChunkM)) [0, 0, 0, 5] =
        .error .unexpectedEof := by rfl
    rw [receiveFile_eq_error _ _ _ h]
    rfl
  · conv_lhs => unfold cleanFrameStream
    simp [u32FromBeBytes]

/-! ### Fork-per-connection child accounting (`core.rs:131-178`)

The parent process is single-threaded: per accepted connection it reaps
finished children (`cleanup_finished_children`), blocks until a slot is free
(`wait_for_available_slot`), forks, and increments `active_children`.  The
environment chooses how many children have exited before each reap and
whether `fork` succeeds.  `active_children` is an `AtomicUsize` updated with
wrapping `fetch_add`/`fetch_sub` (modelled `% 2^64`); the ghost field
`unreaped` counts forked children not yet waited on, which is exactly what a
successful `waitpid(-1, _)` requires.  Traces record every value the counter
takes after each atomic update, i.e. every observable instant. -/

/-- Parent-side accounting state of `ForkPerConnectionTcpServer`. -/
structure ForkState where
  active : Nat
  unreaped : Nat
  deriving DecidableEq

/-- `fetch_sub(1)` on a `usize` (wrapping). -/
def usizeDec (n : Nat) : Nat := (n + (2 ^ 64 - 1)) % 2 ^ 64

/-- `fetch_add(1)` on a `usize` (wrapping). -/
def usizeInc (n : Nat) : Nat := (n + 1) % 2 ^ 64

/-- Embedding of `cleanup_finished_children` (`core.rs:161-166`): while
`waitpid(-1, WNOHANG)` reaps an exited child, decrement the counter.  The
environment reports `z` exited children; the loop stops early when no
unreaped child remains (`WNOHANG` returns 0).  Returns the final state and
the counter values after each decrement. -/
def cleanupFinishedChildren (z : Nat) (st : ForkState) : ForkState × List Nat :=
  match z with
  | 0 => (st, [])
  | z + 1 =>
    if st.unreaped = 0 then (st, [])
    else
      let st1 : ForkState := ⟨usizeDec st.active, st.unreaped - 1⟩
      let r := cleanupFinishedChildren z st1
      (r.1, st1.active :: r.2)

/-- Embedding of `wait_for_available_slot` (`core.rs:168-178`): while
`active_children ≥ max_children`, perform a blocking `waitpid`; on success
decrement the counter, on failure (no child to wait for) just log and retry.
`fuel` bounds the observation window on the loop (the real loop spins forever
when it can never exit); the Bool reports whether the loop exited. -/
def waitForAvailableSlot (fuel maxChildren : Nat) (st : ForkState) :
    ForkState × List Nat × Bool :=
  match fuel with
  | 0 => (st, [], false)
  | fuel + 1 =>
    if st.active < maxChildren then (st, [], true)
    else if st.unreaped = 0 then waitForAvailableSlot fuel maxChildren st
    else
      let st1 : ForkState := ⟨usizeDec st.active, st.unreaped - 1⟩
      let r := waitForAvailableSlot fuel maxChildren st1
      (r.1, st1.active :: r.2.1, r.2.2)

/-- Embedding of the fork step of the accept-loop body (`core.rs:138-148`):
on a successful fork the parent increments `active_children` (and one more
child will eventually be reapable); on failure it logs and continues. -/
def forkChild (forkOk : Bool) (st : ForkState) : ForkState × List Nat :=
  if forkOk then
    let st1 : ForkState := ⟨usizeInc st.active, st.unreaped + 1⟩
    (st1, [st1.active])
  else (st, [])

/-- One accepted connection as the environment presents it to the accept
loop: how many children have exited since the last reap, whether `fork`
succeeds, and the observation bound on the blocking-wait loop. -/
structure ConnEvent where
  exited : Nat
  forkOk : Bool
  fuel : Nat
  deriving DecidableEq

/-- One iteration of the accept-loop body of
`ForkPerConnectionTcpServer::serve` (`core.rs:134-149`): reap, wait for a
slot, fork.  The Bool is false when the wait loop was still blocked at the
end of the observation window (in which case the fork never happens). -/
def handleConn (maxChildren : Nat) (ev : ConnEvent) (st : ForkState) :
    ForkState × List Nat × Bool :=
  let r1 := cleanupFinishedChildren ev.exited st
  let r2 := waitForAvailableSlot ev.fuel maxChildren r1.1
  if r2.2.2 then
    let r3 := forkChild ev.forkOk r2.1
    (r3.1, r1.2 ++ r2.2.1 ++ r3.2, true)
  else (r2.1, r1.2 ++ r2.2.1, false)

/-- The accept loop of `ForkPerConnectionTcpServer::serve` (`core.rs:131-150`)
over a finite sequence of accepted connections, accumulating every counter
value observed. -/
def serveLoop (maxChildren : Nat) (evs : List ConnEvent) (st : ForkState) :
    ForkState × List Nat :=
  match evs with
  | [] => (st, [])
  | ev :: tl =>
    let r1 := handleConn maxChildren ev st
    if r1.2.2 then
      let r2 := serveLoop maxChildren tl r1.1
      (r2.1, r1.2.1 ++ r2.2)
    else (r1.1, r1.2.1)

/-- The inductive invariant of the parent's accounting: the counter equals
the number of unreaped children and never exceeds `max_children`. -/
def ForkInv (maxChildren : Nat) (st : ForkState) : Prop :=
  st.active = st.unreaped ∧ st.active ≤ maxChildren

theorem usizeDec_of_pos (n : Nat) (h1 : 0 < n) (h2 : n < 2 ^ 64) :
    usizeDec n = n - 1 := by
  rw [usizeDec]
  omega

set_option maxRecDepth 2000 in
theorem cleanupFinishedChildren_inv (maxChildren : Nat)
    (hmax : maxChildren < 2 ^ 64) :
    ∀ z st, ForkInv maxChildren st →
      ForkInv maxChildren (cleanupFinishedChildren z st).1 ∧
        ∀ v ∈ (cleanupFinishedChildren z st).2, v ≤ maxChildren := by
  intro z
  induction z with
  | zero =>
    intro st hinv
    exact ⟨hinv, by simp [cleanupFinishedChildren]⟩
  | succ z ih =>
    intro st hinv
    rw [cleanupFinishedChildren]
    by_cases hu : st.unreaped = 0
    · rw [if_pos hu]
      exact ⟨hinv, by simp⟩
    · rw [if_neg hu]
      obtain ⟨heq, hle⟩ := hinv
      have hpos : 0 < st.active := by omega
      have hdec : usizeDec st.active = st.active - 1 :=
        usizeDec_of_pos st.active hpos (by omega)
      have hinv1 : ForkInv maxChildren ⟨usizeDec st.active, st.unreaped - 1⟩ := by
        constructor
        · simp only [hdec]
          omega
        · simp only [hdec]
          omega
      obtain ⟨hinvf, htr⟩ := ih ⟨usizeDec st.active, st.unreaped - 1⟩ hinv1
      refine ⟨hinvf, ?_⟩
      intro v hv
      simp only [List.mem_cons] at hv
      rcases hv with hv | hv
      · rw [hv, usizeDec]
        omega
      · exact htr v hv

set_option maxRecDepth 2000 in
theorem waitForAvailableSlot_inv (maxChildren : Nat)
    (hmax : maxChildren < 2 ^ 64) :
    ∀ fuel st, ForkInv maxChildren st →
      ForkInv maxChildren (waitForAvailableSlot fuel maxChildren st).1 ∧
        (∀ v ∈ (waitForAvailableSlot fuel maxChildren st).2.1, v ≤ maxChildren) ∧
        ((waitForAvailableSlot fuel maxChildren st).2.2 = true →
          (waitForAvailableSlot fuel maxChildren st).1.active < maxChildren) := by
  intro fuel
  induction fuel with
  | zero =>
    intro st hinv
    exact ⟨hinv, by simp [waitForAvailableSlot], by simp [waitForAvailableSlot]⟩
  | succ fuel ih =>
    intro st hinv
    rw [waitForAvailableSlot]
    by_cases hlt : st.active < maxChildren
    · rw [if_pos hlt]
      exact ⟨hinv, by simp, fun _ => hlt⟩
    · rw [if_neg hlt]
      by_cases hu : st.unreaped = 0
      · rw [if_pos hu]
        exact ih st hinv
      · rw [if_neg hu]
        obtain ⟨heq, hle⟩ := hinv
        have hpos : 0 < st.active := by omega
        have hdec : usizeDec st.active = st.active - 1 :=
          usizeDec_of_pos st.active hpos (by omega)
        have hinv1 : ForkInv maxChildren ⟨usizeDec st.active, st.unreaped - 1⟩ := by
          constructor
          · simp only [hdec]
            omega
          · simp only [hdec]
            omega
        obtain ⟨hinvf, htr, hdone⟩ := ih ⟨usizeDec st.active, st.unreaped - 1⟩ hinv1
        refine ⟨hinvf, ?_, hdone⟩
        intro v hv
        simp only [List.mem_cons] at hv
        rcases hv with hv | hv
        · rw [hv, usizeDec]
          omega
        · exact htr v hv

theorem forkChild_inv (maxChildren : Nat) (hmax : maxChildren < 2 ^ 64)
    (forkOk : Bool) (st : ForkState) (hinv : ForkInv maxChildren st)
    (hslot : st.active < maxChildren) :
    ForkInv maxChildren (forkChild forkOk st).1 ∧
      ∀ v ∈ (forkChild forkOk st).2, v ≤ maxChildren := by
  obtain ⟨heq, hle⟩ := hinv
  cases forkOk with
  | false =>
    have h1 : forkChild false st = (st, []) := by
      rw [forkChild]
      simp
    rw [h1]
    exact ⟨⟨heq, hle⟩, by simp⟩
  | true =>
    have h1 : forkChild true st =
        (⟨usizeInc st.active, st.unreaped + 1⟩, [usizeInc st.active]) := by
      rw [forkChild]
      simp
    have hinc : usizeInc st.active = st.active + 1 := by
      rw [usizeInc]
      omega
    rw [h1]
    refine ⟨⟨?_, ?_⟩, ?_⟩
    · simp only [hinc]
      omega
    · simp only [hinc]
      omega
    · intro v hv
      simp only [List.mem_singleton] at hv
      rw [hv, hinc]
      omega

theorem handleConn_inv (maxChildren : Nat) (hmax : maxChildren < 2 ^ 64)
    (ev : ConnEvent) (st : ForkState) (hinv : ForkInv maxChildren st) :
    ForkInv maxChildren (handleConn maxChildren ev st).1 ∧
      ∀ v ∈ (handleConn maxChildren ev st).2.1, v ≤ maxChildren := by
  obtain ⟨hinv1, htr1⟩ := cleanupFinishedChildren_inv maxChildren hmax ev.exited st hinv
  obtain ⟨hinv2, htr2, hdone⟩ :=
    waitForAvailableSlot_inv maxChildren hmax ev.fuel
      (cleanupFinishedChildren ev.exited st).1 hinv1
  rw [handleConn]
  by_cases hd : (waitForAvailableSlot ev.fuel maxChildren
      (cleanupFinishedChildren ev.exited st).1).2.2 = true
  · obtain ⟨hinv3, htr3⟩ :=
      forkChild_inv maxChildren hmax ev.forkOk
        (waitForAvailableSlot ev.fuel maxChildren
          (cleanupFinishedChildren ev.exited st).1).1 hinv2 (hdone hd)
    rw [if_pos hd]
    refine ⟨hinv3, ?_⟩
    intro v hv
    simp only [List.mem_append] at hv
    rcases hv with (hv | hv) | hv
    · exact htr1 v hv
    · exact htr2 v hv
    · exact htr3 v hv
  · rw [if_neg hd]
    refine ⟨hinv2, ?_⟩
    intro v hv
    simp only [List.mem_append] at hv
    rcases hv with hv | hv
    · exact htr1 v hv
    · exact htr2 v hv

theorem serveLoop_inv (maxChildren : Nat) (hmax : maxChildren < 2 ^ 64) :
    ∀ evs st, ForkInv maxChildren st →
      ForkInv maxChildren (serveLoop maxChildren evs st).1 ∧
        ∀ v ∈ (serveLoop maxChildren evs st).2, v ≤ maxChildren := by
  intro evs
  induction evs with
  | nil =>
    intro st hinv
    exact ⟨hinv, by simp [serveLoop]⟩
  | cons ev tl ih =>
    intro st hinv
    obtain ⟨hinv1, htr1⟩ := handleConn_inv maxChildren hmax ev st hinv
    rw [serveLoop]
    by_cases hd : (handleConn maxChildren ev st).2.2 = true
    · rw [if_pos hd]
      obtain ⟨hinv2, htr2⟩ := ih (handleConn maxChildren ev st).1 hinv1
      refine ⟨hinv2, ?_⟩
      intro v hv
      simp only [List.mem_append] at hv
      rcases hv with hv | hv
      · exact htr1 v hv
      · exact htr2 v hv
    · rw [if_neg hd]
      exact ⟨hinv1, htr1⟩

/-- Claim C6: starting from zero children, for every sequence of accepted
connections, child exits, fork outcomes and wait-loop observation windows the
accept loop of `ForkPerConnectionTcpServer` may process, the
`active_children` counter never exceeds `max_children` at any observable
instant: every value in the trace of counter updates, and the final value,
is at most `max_children`. -/
theorem forkPerConnection_active_children_bound (maxChildren : Nat)
    (hmax : maxChildren < 2 ^ 64) (evs : List ConnEvent) :
    (serveLoop maxChildren evs ⟨0, 0⟩).1.active ≤ maxChildren ∧
      ∀ v ∈ (serveLoop maxChildren evs ⟨0, 0⟩).2, v ≤ maxChildren := by
  obtain ⟨⟨_, hle⟩, htr⟩ :=
    serveLoop_inv maxChildren hmax evs ⟨0, 0⟩ ⟨rfl, Nat.zero_le _⟩
  exact ⟨hle, htr⟩

theorem forkPerConnection_active_children_bound_witness :
    (1 : Nat) < 2 ^ 64 ∧
      ((serveLoop 1 [⟨0, true, 4⟩, ⟨1, true, 4⟩, ⟨0, false, 4⟩] ⟨0, 0⟩).1.active ≤ 1 ∧
        ∀ v ∈ (serveLoop 1 [⟨0, true, 4⟩, ⟨1, true, 4⟩, ⟨0, false, 4⟩] ⟨0, 0⟩).2, v ≤ 1) :=
  ⟨by norm_num,
   forkPerConnection_active_children_bound 1 (by norm_num)
     [⟨0, true, 4⟩, ⟨1, true, 4⟩, ⟨0, false, 4⟩]⟩

/-! ### Resolver front end (`net-addresses/src/getaddrinfo.rs`)

Platform numerals are the Linux ones the source imports from `libc`:
`AF_UNSPEC = 0`, `AF_INET = 2`, `AF_INET6 = 10`; `SOCK_STREAM = 1`,
`SOCK_DGRAM = 2`, `SOCK_RAW = 3`, `SOCK_SEQPACKET = 5`; `IPPROTO_IP = 0`,
`IPPROTO_TCP = 6`, `IPPROTO_UDP = 17`, `IPPROTO_SCTP = 132`. -/

/-- The `AddrFamily` enum (`getaddrinfo.rs:40-47`). -/
inductive AddrFamily where
  | unspecified
  | inet
  | inet6
  deriving DecidableEq

/-- `impl From<c_int> for AddrFamily` (`getaddrinfo.rs:63-72`) as a partial
function: the source `panic!`s on any other numeral, modelled `none`. -/
def addrFamilyFromInt (n : Int) : Option AddrFamily :=
  if n = 0 then some .unspecified
  else if n = 2 then some .inet
  else if n = 10 then some .inet6
  else none

/-- The `SockType` enum (`getaddrinfo.rs:75-84`). -/
inductive SockType where
  | unspecified
  | stream
  | datagram
  | raw
  | seqPacket
  deriving DecidableEq

/-- `impl From<c_int> for SockType` (`getaddrinfo.rs:104-115`) as a partial
function: the source `panic!`s on any numeral outside
`{0, SOCK_STREAM, SOCK_DGRAM, SOCK_RAW, SOCK_SEQPACKET}`. -/
def sockTypeFromInt (n : Int) : Option SockType :=
  if n = 0 then some .unspecified
  else if n = 1 then some .stream
  else if n = 2 then some .datagram
  else if n = 3 then some .raw
  else if n = 5 then some .seqPacket
  else none

/-- The `Protocol` enum (`getaddrinfo.rs:118-126`). -/
inductive Protocol where
  | unspecified
  | tcp
  | udp
  | sctp
  deriving DecidableEq

/-- `impl From<c_int> for Protocol` (`getaddrinfo.rs:144-154`) as a partial
function: the source `panic!`s on any numeral outside
`{IPPROTO_IP, IPPROTO_TCP, IPPROTO_UDP, IPPROTO_SCTP}`. -/
def protocolFromInt (n : Int) : Option Protocol :=
  if n = 0 then some .unspecified
  else if n = 6 then some .tcp
  else if n = 17 then some .udp
  else if n = 132 then some .sctp
  else none

/-- One OS-returned `addrinfo` record as `AddrInfo::from_ptr` consumes it
(`getaddrinfo.rs:251-285`); the raw socket-address payload is summarised by
its family (what `SockAddr::as_socket` inspects), and `hasCanonname` by
whether `ai_canonname` is non-null. -/
structure RawAddrInfo where
  aiFlags : Int
  aiFamily : Int
  aiSocktype : Int
  aiProtocol : Int
  hasCanonname : Bool
  deriving DecidableEq

/-- The strongly typed record `AddrInfo` (`getaddrinfo.rs:196-203`), with the
decoded socket address abstracted away. -/
structure AddrInfoM where
  flags : Int
  family : AddrFamily
  socktype : SockType
  protocol : Protocol
  hasCanonname : Bool
  deriving DecidableEq

/-- Embedding of `AddrInfo::from_ptr` (`getaddrinfo.rs:251-285`): the copied
sockaddr is decoded by `socket2::SockAddr::as_socket`, which yields a
`SocketAddr` exactly for the IPv4/IPv6 families; any other family returns an
`Unsupported` error via `?` *before* the `ai_family`/`ai_socktype`/
`ai_protocol` `From` conversions run.  When the family is IPv4/IPv6, the
conversions run and `panic!` (`none`) on numerals outside their enums. -/
def fromPtr (r : RawAddrInfo) : Option (Except ErrKind AddrInfoM) :=
  if ¬(r.aiFamily = 2 ∨ r.aiFamily = 10) then some (.error .unsupported)
  else
    match addrFamilyFromInt r.aiFamily, sockTypeFromInt r.aiSocktype,
        protocolFromInt r.aiProtocol with
    | some f, some st, some p => some (.ok ⟨r.aiFlags, f, st, p, r.hasCanonname⟩)
    | _, _, _ => none

/-- Claim C10: the numeric-to-enum conversions are partial — an OS record
with an IPv4/IPv6 family but an `ai_socktype` outside
`{0, SOCK_STREAM, SOCK_DGRAM, SOCK_RAW, SOCK_SEQPACKET}` or an `ai_protocol`
outside `{IPPROTO_IP, IPPROTO_TCP, IPPROTO_UDP, IPPROTO_SCTP}` panics in
`AddrInfo` construction instead of yielding an error item, whereas a
non-IPv4/IPv6 family is returned as an `Unsupported` error item without
panicking, whatever its socktype and protocol numerals (the family check of
`as_socket` precedes the conversions). -/
theorem fromPtr_conversion_domain (r : RawAddrInfo) :
    ((r.aiFamily = 2 ∨ r.aiFamily = 10) →
        (¬(r.aiSocktype = 0 ∨ r.aiSocktype = 1 ∨ r.aiSocktype = 2 ∨
            r.aiSocktype = 3 ∨ r.aiSocktype = 5) ∨
          ¬(r.aiProtocol = 0 ∨ r.aiProtocol = 6 ∨ r.aiProtocol = 17 ∨
            r.aiProtocol = 132)) →
        fromPtr r = none) ∧
      (¬(r.aiFamily = 2 ∨ r.aiFamily = 10) →
        fromPtr r = some (.error .unsupported)) := by
  constructor
  · intro hfam hbad
    rw [fromPtr, if_neg (by push_neg; exact hfam)]
    have hsome : addrFamilyFromInt r.aiFamily = some .inet ∨
        addrFamilyFromInt r.aiFamily = some .inet6 := by
      rcases hfam with h | h
      · left
        rw [addrFamilyFromInt, h]
        rfl
      · right
        rw [addrFamilyFromInt, h]
        rfl
    rcases hbad with hbad | hbad
    · have hst : sockTypeFromInt r.aiSocktype = none := by
        rw [sockTypeFromInt]
        push_neg at hbad
        rw [if_neg hbad.1, if_neg hbad.2.1, if_neg hbad.2.2.1, if_neg hbad.2.2.2.1,
          if_neg hbad.2.2.2.2]
      rcases hsome with hf | hf
      · rw [hf, hst]
      · rw [hf, hst]
    · have hpr : protocolFromInt r.aiProtocol = none := by
        rw [protocolFromInt]
        push_neg at hbad
        rw [if_neg hbad.1, if_neg hbad.2.1, if_neg hbad.2.2.1, if_neg hbad.2.2.2]
      rcases hsome with hf | hf
      · rw [hf, hpr]
        cases sockTypeFromInt r.aiSocktype <;> rfl
      · rw [hf, hpr]
        cases sockTypeFromInt r.aiSocktype <;> rfl
  · intro hfam
    rw [fromPtr, if_pos hfam]

theorem fromPtr_conversion_domain_witness :
    (((2 : Int) = 2 ∨ (2 : Int) = 10) ∧
        (¬((4 : Int) = 0 ∨ (4 : Int) = 1 ∨ (4 : Int) = 2 ∨ (4 : Int) = 3 ∨
            (4 : Int) = 5) ∨
          ¬((0 : Int) = 0 ∨ (0 : Int) = 6 ∨ (0 : Int) = 17 ∨ (0 : Int) = 132)) ∧
        fromPtr ⟨0, 2, 4, 0, false⟩ = none) ∧
      (¬((1 : Int) = 2 ∨ (1 : Int) = 10) ∧
        fromPtr ⟨0, 1, 4, 99, false⟩ = some (.error .unsupported)) :=
  ⟨⟨Or.inl rfl, Or.inl (by decide),
    (fromPtr_conversion_domain ⟨0, 2, 4, 0, false⟩).1 (Or.inl rfl) (Or.inl (by decide))⟩,
   ⟨by decide,
    (fromPtr_conversion_domain ⟨0, 1, 4, 99, false⟩).2 (by decide)⟩⟩

/-- The `AddrInfoHints` structure (`getaddrinfo.rs:157-163`); its Rust
`Default` is all-unspecified with zero flags. -/
structure AddrInfoHintsM where
  flags : Int
  family : AddrFamily
  socktype : SockType
  protocol : Protocol
  deriving DecidableEq

/-- `AddrInfoHints::default()`. -/
def defaultHints : AddrInfoHintsM := ⟨0, .unspecified, .unspecified, .unspecified⟩

/-- `CString::new` fails exactly when the byte string contains a NUL. -/
def hasNulByte : Option (List Nat) → Bool
  | none => false
  | some h => decide (0 ∈ h)

/-- Embedding of `getaddrinfo` (`getaddrinfo.rs:324-368`) up to the OS call:
reject when both `host` and `service` are absent (`InvalidInput`); build the
host C string, rejecting NUL bytes (`InvalidInput`); likewise the service
string; then, and only then, invoke `libc::getaddrinfo` with the hints (or
their default).  The OS resolver is the opaque parameter `osResolve`; the
returned Bool records whether it was invoked. -/
def getaddrinfoM {R : Type} (host service : Option (List Nat))
    (hints : Option AddrInfoHintsM)
    (osResolve : Option (List Nat) → Option (List Nat) → AddrInfoHintsM →
      Except ErrKind R) :
    Except ErrKind R × Bool :=
  if host = none ∧ service = none then (.error .invalidInput, false)
  else if hasNulByte host then (.error .invalidInput, false)
  else if hasNulByte service then (.error .invalidInput, false)
  else (osResolve host service (hints.getD defaultHints), true)

/-- Claim C7: the resolver rejects degenerate input before touching the OS:
for every hints value and every OS resolver behaviour, `resolve(None, None)`
fails with `InvalidInput`, and any host or service string containing an
interior NUL byte fails with `InvalidInput`; in both cases the OS resolver
is not invoked (the Bool component stays `false`). -/
theorem getaddrinfo_rejects_degenerate {R : Type}
    (hints : Option AddrInfoHintsM)
    (os : Option (List Nat) → Option (List Nat) → AddrInfoHintsM →
      Except ErrKind R) :
    getaddrinfoM none none hints os = (.error .invalidInput, false) ∧
      ∀ host service : Option (List Nat),
        ((∃ h, host = some h ∧ 0 ∈ h) ∨ (∃ sv, service = some sv ∧ 0 ∈ sv)) →
        getaddrinfoM host service hints os = (.error .invalidInput, false) := by
  constructor
  · rw [getaddrinfoM, if_pos ⟨rfl, rfl⟩]
  · intro host service hnul
    rw [getaddrinfoM]
    have hnotboth : ¬(host = none ∧ service = none) := by
      rintro ⟨hh, hs⟩
      rcases hnul with ⟨h, hh2, _⟩ | ⟨sv, hs2, _⟩
      · rw [hh] at hh2
        exact absurd hh2 (by simp)
      · rw [hs] at hs2
        exact absurd hs2 (by simp)
    rw [if_neg hnotboth]
    rcases hnul with ⟨h, hh2, hmem⟩ | ⟨sv, hs2, hmem⟩
    · have : hasNulByte host = true := by
        rw [hh2, hasNulByte]
        exact decide_eq_true hmem
      rw [if_pos this]
    · by_cases hh : hasNulByte host = true
      · rw [if_pos hh]
      · rw [if_neg hh]
        have : hasNulByte service = true := by
          rw [hs2, hasNulByte]
          exact decide_eq_true hmem
        rw [if_pos this]

theorem getaddrinfo_rejects_degenerate_witness :
    (getaddrinfoM (R := Unit) none none none (fun _ _ _ => .ok ()) =
        (.error .invalidInput, false)) ∧
      ((∃ h, (some [104, 0, 105] : Option (List Nat)) = some h ∧ 0 ∈ h) ∧
        getaddrinfoM (R := Unit) (some [104, 0, 105]) none none
            (fun _ _ _ => .ok ()) =
          (.error .invalidInput, false)) :=
  ⟨(getaddrinfo_rejects_degenerate none (fun _ _ _ => .ok ())).1,
   ⟨⟨[104, 0, 105], rfl, by decide⟩,
    (getaddrinfo_rejects_degenerate none (fun _ _ _ => .ok ())).2
      (some [104, 0, 105]) none (Or.inl ⟨[104, 0, 105], rfl, by decide⟩)⟩⟩

/-! ### Worker-pool CPU sizing (`thread_pool.rs`) -/

/-- Embedding of `get_num_cpus` (`thread_pool.rs:109-120`): when
`sched_getaffinity` succeeds (the environment supplies `some` affinity mask)
the result is the count of set bits among the `CPU_SETSIZE = 1024` slots —
returned as is; only when the query fails does the code fall back to
`sysconf(_SC_NPROCESSORS_ONLN)` clamped by `cmp::max(count, 1)`. -/
def getNumCpus (affinity : Option (Nat → Bool)) (nprocOnln : Int) : Nat :=
  match affinity with
  | some mask => ((List.range 1024).filter (fun i => mask i)).length
  | none => (max nprocOnln 1).toNat

/-- The worker pool (`thread_pool.rs:8-45`): `ThreadPool::new` asserts
`size > 0` (panics on zero, modelled `none`); `ThreadPool::default` uses
`get_num_cpus()` as the size. -/
def threadPoolNew (size : Nat) : Option Nat :=
  if size = 0 then none else some size

/-- `ThreadPool::default` (`thread_pool.rs:40-45`). -/
def threadPoolDefault (affinity : Option (Nat → Bool)) (nprocOnln : Int) :
    Option Nat :=
  threadPoolNew (getNumCpus affinity nprocOnln)

/-- Amended claim C8: the pool's default size is the number of logical CPUs:
the popcount of the process affinity mask when `sched_getaffinity` succeeds,
else `sysconf(_SC_NPROCESSORS_ONLN)` clamped to at least 1.  The clamp is
applied only on the sysconf fallback path; on the affinity path the raw
popcount is returned, which is positive only because a live process's mask
has at least one allowed CPU (hypothesis `hmask`) — the code itself does not
enforce it. -/
theorem getNumCpus_default_size (mask : Nat → Bool) (nprocOnln : Int)
    (i : Nat) (hi : i < 1024) (hmask : mask i = true) :
    1 ≤ getNumCpus (some mask) nprocOnln ∧
      (∀ m : Int, 1 ≤ getNumCpus none m) ∧
      threadPoolDefault (some mask) nprocOnln =
        some (getNumCpus (some mask) nprocOnln) := by
  have hpos : 1 ≤ getNumCpus (some mask) nprocOnln := by
    have hmem : i ∈ (List.range 1024).filter (fun j => mask j) :=
      List.mem_filter.mpr ⟨List.mem_range.mpr hi, hmask⟩
    exact List.length_pos_of_mem hmem
  refine ⟨hpos, ?_, ?_⟩
  · intro m
    rw [getNumCpus]
    omega
  · rw [threadPoolDefault, threadPoolNew, if_neg (by omega)]

theorem getNumCpus_default_size_witness :
    (0 : Nat) < 1024 ∧ (fun j : Nat => j == 0) 0 = true ∧
      (1 ≤ getNumCpus (some (fun j => j == 0)) 8 ∧
        (∀ m : Int, 1 ≤ getNumCpus none m) ∧
        threadPoolDefault (some (fun j => j == 0)) 8 =
          some (getNumCpus (some (fun j => j == 0)) 8)) :=
  ⟨by norm_num, rfl, getNumCpus_default_size (fun j => j == 0) 8 0 (by norm_num) rfl⟩

/-- Counterexample to claim C8 as stated: the affinity path performs no
clamping — on a mask with no set bits `get_num_cpus` returns `0`, not at
least 1 (`thread_pool.rs:112-116` returns the filtered count directly; the
`cmp::max(count, 1)` at line 119 is reached only when `sched_getaffinity`
fails). -/
theorem getNumCpus_empty_mask_zero :
    getNumCpus (some (fun _ => false)) 8 = 0 := by
  rw [getNumCpus]
  simp

end NpuxLabs
